import Mathlib

/-!
Verification development for the download/write/extract pipeline of
`src/helpers.rs` (cargo-binstall).

The Rust code is shallowly embedded: the effectful boundaries (URL
parsing, the HTTP client, the filesystem, the disk write syscalls, the
task join) are abstracted into oracles supplied as explicit parameters,
while the control flow of each function is translated statement by
statement from the source.  Bytes are `Nat`, a chunk (`bytes::Bytes`)
is a `List Nat`, the destination file is `Option (List Nat)` (`none` =
the path does not exist).
-/

/-- Abstract `url::ParseError`. -/
abbrev UrlErr := Nat

/-- Abstract `reqwest::Error` (transport failure or non-success status). -/
abbrev HttpErr := Nat

/-- Abstract `tokio::task::JoinError`. -/
abbrev JoinErr := Nat

/-- The `std::io::ErrorKind` values the embedding distinguishes. -/
inductive ErrKind where
  | notFound
  | permissionDenied
  | other
deriving DecidableEq, Repr

/-- Abstract `std::io::Error`: a kind plus an identifying code. -/
structure IoErr where
  kind : ErrKind
  code : Nat
deriving DecidableEq, Repr

/-- Abstract decode error (corruption / unsupported entry), including the
rejection of a path-traversal entry. -/
inductive DecodeErr where
  | corrupt (code : Nat)
  | pathEscape
deriving DecidableEq, Repr

/-- Abstract parsed `url::Url` (only its identity matters here). -/
abbrev Url := String

/-- `reqwest::Method`; `download` only ever uses GET. -/
inductive HttpMethod where
  | GET
  | HEAD
deriving DecidableEq, Repr

/-- Modelled from the spec: the error taxonomy of `crate::BinstallError`
(section 7), whose definition lives outside `src/helpers.rs`.  Variants:
UrlParse, Http with method/url/cause, an I/O error (also carrying worker
join failures, which the code wraps into `io::Error`), a decode error,
and UserAbort from the confirmation prompt. -/
inductive BinstallError where
  | urlParse (e : UrlErr)
  | httpFail (method : HttpMethod) (url : Url) (e : HttpErr)
  | ioError (e : IoErr)
  | decodeFail (e : DecodeErr)
  | userAbort
deriving DecidableEq, Repr

/-- A chunk of the response body (`bytes::Bytes`). -/
abbrev Chunk := List Nat

/-- Capacity of the bounded mpsc queue, `mpsc::channel::<Bytes>(100)`
(src/helpers.rs line 247). -/
def queueCapacity : Nat := 100

/-!
## The worker loop of `AsyncFileWriter`

`AsyncFileWriter::new` spawns one blocking task (src/helpers.rs lines
249-258):

  while let Some(bytes) = rx.blocking_recv() { file.write_all(&*bytes)?; }
  rx.close();
  file.flush()?;
  Ok(())

The queue is a single-producer single-consumer FIFO, so over a whole run
the sequence of chunks the worker receives is exactly the sequence the
producer sent, in order; `chunks` below is that sequence.  `wrErr n` is
the outcome of the n-th `write_all` syscall (`none` = success) and
`flushErr` the outcome of the final `flush`.  The result is the list of
chunks actually written to the file, in order, together with the worker
task's terminal `io::Result<()>`.
-/
def workerRun (wrErr : Nat → Option IoErr) (flushErr : Option IoErr) :
    List Chunk → Nat → List Chunk × Except IoErr Unit
  | [], _ =>
      ([], match flushErr with
           | none => .ok ()
           | some e => .error e)
  | c :: rest, n =>
      match wrErr n with
      | some e => ([], .error e)
      | none =>
          let p := workerRun wrErr flushErr rest (n + 1)
          (c :: p.1, p.2)

/-- `AsyncFileWriter::wait` maps a join failure to
`io::Error::new(io::ErrorKind::Other, join_err)` (src/helpers.rs line 305). -/
def ioOfJoin (j : JoinErr) : IoErr := ⟨.other, j⟩

/-- `AsyncFileWriter::done` (src/helpers.rs lines 294-300): drop `tx`
(closing the queue so the worker drains and flushes), then await the
worker through `wait`.  `joinErr` is `some j` when the join itself fails
(worker panicked / cancelled). -/
def doneModel (wrErr : Nat → Option IoErr) (flushErr : Option IoErr)
    (joinErr : Option JoinErr) (chunks : List Chunk) : Except IoErr Unit :=
  match joinErr with
  | some j => .error (ioOfJoin j)
  | none => (workerRun wrErr flushErr chunks 0).2

/-- Helper: the worker run with shifted write indices, fully characterised. -/
theorem workerRun_ok_prefix (wrErr : Nat → Option IoErr) (flushErr : Option IoErr)
    (chunks : List Chunk) (n : Nat)
    (h : ∀ i, i < chunks.length → wrErr (n + i) = none) :
    workerRun wrErr flushErr chunks n =
      (chunks, match flushErr with | none => .ok () | some e => .error e) := by
  induction chunks generalizing n with
  | nil => rfl
  | cons c rest ih =>
      have h0 : wrErr n = none := by
        have := h 0 (Nat.succ_pos rest.length)
        simpa using this
      have hrest : ∀ i, i < rest.length → wrErr (n + 1 + i) = none := by
        intro i hi
        have := h (i + 1) (by simpa using Nat.succ_lt_succ hi)
        simpa [Nat.add_assoc, Nat.add_comm 1 i] using this
      simp [workerRun, h0, ih (n + 1) hrest]

/-- Helper: the worker stops at the first failing write. -/
theorem workerRun_stops_at_err (wrErr : Nat → Option IoErr) (flushErr : Option IoErr)
    (chunks : List Chunk) (n k : Nat) (e : IoErr)
    (hk : k < chunks.length)
    (hfail : wrErr (n + k) = some e)
    (hbefore : ∀ i, i < k → wrErr (n + i) = none) :
    workerRun wrErr flushErr chunks n = (chunks.take k, .error e) := by
  induction chunks generalizing n k with
  | nil => exact absurd hk (Nat.not_lt_zero k)
  | cons c rest ih =>
      cases k with
      | zero =>
          have h0 : wrErr n = some e := by simpa using hfail
          simp [workerRun, h0]
      | succ k =>
          have h0 : wrErr n = none := by
            have := hbefore 0 (Nat.succ_pos k)
            simpa using this
          have hk2 : k < rest.length := Nat.lt_of_succ_lt_succ hk
          have hfail2 : wrErr (n + 1 + k) = some e := by
            have : n + 1 + k = n + (k + 1) := by omega
            rw [this]; exact hfail
          have hbefore2 : ∀ i, i < k → wrErr (n + 1 + i) = none := by
            intro i hi
            have : n + 1 + i = n + (i + 1) := by omega
            rw [this]
            exact hbefore (i + 1) (Nat.succ_lt_succ hi)
          simp [workerRun, h0, ih (n + 1) k hk2 hfail2 hbefore2]

/-- Worker write outcomes fully characterise when the worker task ends with
success: all writes succeeded and the flush succeeded. -/
theorem workerRun_snd_ok_iff (wrErr : Nat → Option IoErr) (flushErr : Option IoErr)
    (chunks : List Chunk) (n : Nat) :
    (workerRun wrErr flushErr chunks n).2 = .ok () ↔
      (∀ i, i < chunks.length → wrErr (n + i) = none) ∧ flushErr = none := by
  induction chunks generalizing n with
  | nil =>
      cases flushErr <;> simp [workerRun]
  | cons c rest ih =>
      cases h : wrErr n with
      | some e =>
          simp only [workerRun, h]
          constructor
          · intro hc
            exact absurd hc (by simp)
          · rintro ⟨hall, -⟩
            have := hall 0 (Nat.succ_pos rest.length)
            simp [h] at this
      | none =>
          simp only [workerRun, h]
          rw [ih (n + 1)]
          constructor
          · rintro ⟨hall, hf⟩
            refine ⟨?_, hf⟩
            intro i hi
            cases i with
            | zero => simpa using h
            | succ i =>
                have hi2 : i < rest.length := Nat.lt_of_succ_lt_succ hi
                have := hall i hi2
                have heq : n + 1 + i = n + (i + 1) := by omega
                rw [heq] at this
                exact this
          · rintro ⟨hall, hf⟩
            refine ⟨?_, hf⟩
            intro i hi
            have := hall (i + 1) (Nat.succ_lt_succ hi)
            have heq : n + (i + 1) = n + 1 + i := by omega
            rw [heq] at this
            exact this

/-!
## `AsyncFileWriter::write` (src/helpers.rs lines 265-292)

`write` pins two futures and races them with `tokio::select!`:
  - `send_future`: `tx.send(bytes)` on the bounded queue, which pends
    while the queue holds `queueCapacity` chunks;
  - `task_future`: awaiting the worker handle, mapped so that a normal
    worker exit raises the "write task finished before all writes are
    done" panic, while an erroneous exit yields the worker's error.

Modelled from the spec: the readiness of the two branches (section 4.1):
while the worker is alive the join handle is pending, so only the send
branch can resolve (and it does exactly when the queue has capacity);
once the worker has died the join handle is ready, so the race resolves
immediately with the worker's terminal result.  `none` means the `write`
future is still pending.
-/
inductive WorkerStatus where
  | running
  | terminated (r : Except IoErr Unit)
deriving Repr

/-- Result of a resolved `AsyncFileWriter::write` future. -/
inductive WriteOutcome where
  | enqueued
  | workerErr (e : IoErr)
  | panicked
deriving DecidableEq, Repr

/-- The `task_future` branch: `Self::wait(&mut self.handle).await.map(|_| panic!(..))`. -/
def taskFutureOutcome : Except IoErr Unit → WriteOutcome
  | .ok _ => .panicked
  | .error e => .workerErr e

/-- The `tokio::select!` of `AsyncFileWriter::write`, as a function of the
worker's status and of how many chunks sit in the bounded queue. -/
def writeRace (st : WorkerStatus) (queueLen : Nat) : Option WriteOutcome :=
  match st with
  | .running => if queueLen < queueCapacity then some .enqueued else none
  | .terminated r => some (taskFutureOutcome r)

/-- C3: `AsyncFileWriter::write(chunk)` races enqueuing the chunk against the
worker's completion and returns whichever resolves first; in particular, once
the worker has terminated with a write error, a pending or subsequent write
never blocks forever on the full bounded queue but resolves with the worker's
error (while a live worker with queue capacity yields a successful enqueue,
and a live worker with a full queue leaves the future pending until the
worker drains). -/
theorem afw_write_races_enqueue_against_worker (e : IoErr) (q : Nat) :
    writeRace (.terminated (.error e)) q = some (.workerErr e) ∧
    (q < queueCapacity → writeRace .running q = some .enqueued) ∧
    (queueCapacity ≤ q → writeRace .running q = none) := by
  refine ⟨rfl, ?_, ?_⟩
  · intro h
    simp [writeRace, h]
  · intro h
    simp [writeRace, Nat.not_lt.mpr h]

/-- C3 witness: with the queue full (100 chunks in flight) and the worker dead
with a write error, `write` resolves with that error; with a live worker and
an empty queue it resolves by enqueuing. -/
theorem afw_write_races_enqueue_against_worker_witness :
    writeRace (.terminated (.error ⟨.other, 5⟩)) queueCapacity
        = some (.workerErr ⟨.other, 5⟩) ∧
    writeRace .running 0 = some .enqueued :=
  ⟨(afw_write_races_enqueue_against_worker ⟨.other, 5⟩ queueCapacity).1,
   (afw_write_races_enqueue_against_worker ⟨.other, 5⟩ 0).2.1 (by decide)⟩

/-- C4: the worker loop writes chunks to the destination file in exactly the
program order of the `write` calls (single producer, single consumer, FIFO
queue — the chunk sequence is neither reordered nor coalesced); when the
queue is closed and drained it flushes and returns success, and on the first
failing write it stops the loop and surfaces that error as its terminal
result. -/
theorem worker_loop_fifo_flush_and_first_error
    (wrErr : Nat → Option IoErr) (flushErr : Option IoErr) (chunks : List Chunk) :
    ((∀ i, i < chunks.length → wrErr i = none) →
        workerRun wrErr none chunks 0 = (chunks, .ok ())) ∧
    (∀ k e, k < chunks.length → wrErr k = some e → (∀ i, i < k → wrErr i = none) →
        workerRun wrErr flushErr chunks 0 = (chunks.take k, .error e)) := by
  constructor
  · intro h
    have := workerRun_ok_prefix wrErr none chunks 0 (by simpa using h)
    simpa using this
  · intro k e hk hfail hbefore
    exact workerRun_stops_at_err wrErr flushErr chunks 0 k e hk (by simpa using hfail)
      (by simpa using hbefore)

/-- All-success write oracle. -/
def wrAllOk : Nat → Option IoErr := fun _ => none

/-- Write oracle whose second `write_all` call fails. -/
def wrFailAtOne : Nat → Option IoErr :=
  fun n => if n = 1 then some ⟨.other, 7⟩ else none

/-- C4 witness: on a three-chunk run with no errors the file receives the
three chunks in order and the worker returns success; with the second write
failing, the worker stops after the first chunk and surfaces the error. -/
theorem worker_loop_fifo_flush_and_first_error_witness :
    workerRun wrAllOk none [[1], [2], [3]] 0 = ([[1], [2], [3]], .ok ()) ∧
    workerRun wrFailAtOne none [[1], [2], [3]] 0 = ([[1]], .error ⟨.other, 7⟩) :=
  ⟨(worker_loop_fifo_flush_and_first_error wrAllOk none [[1], [2], [3]]).1
      (by intro i hi; rfl),
   by
    have := (worker_loop_fifo_flush_and_first_error wrFailAtOne none
      [[1], [2], [3]]).2 1 ⟨.other, 7⟩ (by decide) (by decide)
      (by decide)
    simpa using this⟩

/-- C5: `done()` returns success iff every prior write reached the file
successfully and the worker terminated without error — the final flush
included — and a join failure is mapped to an I/O error of kind Other. -/
theorem done_ok_iff_worker_ok (wrErr : Nat → Option IoErr) (flushErr : Option IoErr)
    (joinErr : Option JoinErr) (chunks : List Chunk) :
    (doneModel wrErr flushErr joinErr chunks = .ok () ↔
      (∀ i, i < chunks.length → wrErr i = none) ∧ flushErr = none ∧ joinErr = none) ∧
    (∀ j, joinErr = some j →
      doneModel wrErr flushErr joinErr chunks = .error ⟨.other, j⟩) := by
  constructor
  · cases joinErr with
    | some j => simp [doneModel, ioOfJoin]
    | none =>
        simp only [doneModel]
        rw [workerRun_snd_ok_iff wrErr flushErr chunks 0]
        simp
  · intro j hj
    subst hj
    simp [doneModel, ioOfJoin]

/-- C5 witness: with all writes and the flush succeeding and a clean join,
`done` succeeds on a two-chunk run; with a join failure 9 it returns the
mapped I/O error. -/
theorem done_ok_iff_worker_ok_witness :
    doneModel wrAllOk none none [[1], [2]] = .ok () ∧
    doneModel wrAllOk none (some 9) [[1], [2]] = .error ⟨.other, 9⟩ :=
  ⟨(done_ok_iff_worker_ok wrAllOk none none [[1], [2]]).1.mpr
      ⟨by intro i hi; rfl, rfl, rfl⟩,
   (done_ok_iff_worker_ok wrAllOk none (some 9) [[1], [2]]).2 9 rfl⟩

/-!
## `AsyncFileWriter::new` and the download orchestrator

A filesystem path is modelled as an absolute/relative flag plus its
components.  `rpathParent` models `std::path::Path::parent`, which is
`None` exactly for a root or empty path; `AsyncFileWriter::new`
(src/helpers.rs line 244) calls `path.parent().unwrap()` on it, so a
parentless destination panics before any filesystem call.
-/
structure RPath where
  absolute : Bool
  comps : List String
deriving DecidableEq, Repr

/-- `Path::parent`: `none` for a root or empty path, otherwise the path
with its last component removed. -/
def rpathParent (p : RPath) : Option RPath :=
  match p.comps with
  | [] => none
  | _ => some ⟨p.absolute, p.comps.dropLast⟩

/-- Outcome of `AsyncFileWriter::new` (src/helpers.rs lines 243-261). -/
inductive NewResult where
  | panicked
  | failed (e : IoErr)
  | created
deriving Repr

/-- `AsyncFileWriter::new`: unwrap the parent (panicking when there is
none), `fs::create_dir_all` the parent, `fs::File::create` the
destination, then spawn the worker.  `mkdirErr` and `createErr` are the
outcomes of the two filesystem calls. -/
def afwNew (p : RPath) (mkdirErr createErr : Option IoErr) : NewResult :=
  match rpathParent p with
  | none => .panicked
  | some _ =>
      match mkdirErr with
      | some e => .failed e
      | none =>
          match createErr with
          | some e => .failed e
          | none => .created

/-- How the download's streaming loop (src/helpers.rs lines 75-77) ends. -/
inductive LoopEnd where
  | ended
  | cancelled
  | streamFail (e : HttpErr)
  | writeFail (e : IoErr)
deriving DecidableEq, Repr

/-- The loop `while let Some(res) = bytes_stream.next().await
{ writer.write(res?).await?; }`.  `items` are the stream's yields in
order (`Err` = transport failure mid-body), `n` counts chunks already
forwarded, and `fuel = some k` models the caller dropping the download
future after `k` more loop iterations (structural cancellation);
`fuel = none` means the future is polled to completion.  A failing disk
write surfaces through `writer.write` at the failing chunk.  Returns the
chunks successfully forwarded to the writer, in order, and how the loop
ended. -/
def dlLoop (wrErr : Nat → Option IoErr) (items : List (Except HttpErr Chunk))
    (n : Nat) (fuel : Option Nat) : List Chunk × LoopEnd :=
  if fuel = some 0 then ([], .cancelled)
  else
    match items with
    | [] => ([], .ended)
    | .error e :: _ => ([], .streamFail e)
    | .ok c :: rest =>
        match wrErr n with
        | some e => ([], .writeFail e)
        | none =>
            let p := dlLoop wrErr rest (n + 1) (Option.map Nat.pred fuel)
            (c :: p.1, p.2)

/-- The chunks a body stream serves before any transport error. -/
def okChunks (items : List (Except HttpErr Chunk)) : List Chunk :=
  items.filterMap fun it =>
    match it with
    | .ok c => some c
    | .error _ => none

/-- The scope guard's cleanup `fs::remove_file(path).ok()`
(src/helpers.rs lines 71-73): the file disappears when removal succeeds;
when removal itself fails the partial content stays on disk, and the
failure is discarded. -/
def failFs (content : List Nat) : Option IoErr → Option (List Nat)
  | none => none
  | some _ => some content

/-- How a run of `download` ends: a panic (parentless destination), the
future being dropped mid-stream, or a returned `Result`. -/
inductive DlOutcome where
  | panicked
  | cancelled
  | returned (r : Except BinstallError Unit)
deriving Repr

/-- Oracles for one run of `download`: outcomes of `Url::parse`, of
`reqwest::get` plus `error_for_status`, of the two filesystem calls in
`AsyncFileWriter::new`, the body stream's yields, the disk write/flush
outcomes, the worker join outcome, the cancellation point, and the
outcome of the cleanup guard's `remove_file`. -/
structure DownloadEnv where
  parseResult : Except UrlErr Url
  httpResult : Except HttpErr Unit
  mkdirErr : Option IoErr
  createErr : Option IoErr
  body : List (Except HttpErr Chunk)
  wrErr : Nat → Option IoErr
  flushErr : Option IoErr
  joinErr : Option JoinErr
  cancelAfter : Option Nat
  removeErr : Option IoErr

/-- End state of one run of `download`: its outcome, the destination
path's final state (`none` = no file at the path), and whether the
cleanup guard was armed and whether its action ran. -/
structure DownloadResult where
  outcome : DlOutcome
  fs : Option (List Nat)
  guardArmed : Bool
  guardFired : Bool

/-- `download(url, path)` (src/helpers.rs lines 52-86): parse the URL,
issue the GET requiring a success status, construct the writer (which
truncates the destination), arm the cleanup guard, forward every body
chunk to the writer, finalize with `done()`, and only then disarm the
guard; every failure or cancellation after the guard is armed runs its
best-effort removal.  `init` is the destination path's state before the
call. -/
def downloadModel (path : RPath) (env : DownloadEnv) (init : Option (List Nat)) :
    DownloadResult :=
  match env.parseResult with
  | .error e => ⟨.returned (.error (.urlParse e)), init, false, false⟩
  | .ok url =>
      match env.httpResult with
      | .error e => ⟨.returned (.error (.httpFail .GET url e)), init, false, false⟩
      | .ok _ =>
          match afwNew path env.mkdirErr env.createErr with
          | .panicked => ⟨.panicked, init, false, false⟩
          | .failed e => ⟨.returned (.error (.ioError e)), init, false, false⟩
          | .created =>
              let p := dlLoop env.wrErr env.body 0 env.cancelAfter
              let onDisk := (workerRun env.wrErr env.flushErr p.1 0).1.flatten
              match p.2 with
              | .ended =>
                  match doneModel env.wrErr env.flushErr env.joinErr p.1 with
                  | .ok _ => ⟨.returned (.ok ()), some p.1.flatten, true, false⟩
                  | .error e =>
                      ⟨.returned (.error (.ioError e)),
                       failFs onDisk env.removeErr, true, true⟩
              | .cancelled =>
                  ⟨.cancelled, failFs onDisk env.removeErr, true, true⟩
              | .streamFail e =>
                  ⟨.returned (.error (.httpFail .GET url e)),
                   failFs onDisk env.removeErr, true, true⟩
              | .writeFail e =>
                  ⟨.returned (.error (.ioError e)),
                   failFs onDisk env.removeErr, true, true⟩

/-- C10: `AsyncFileWriter::new` panics, rather than returning an I/O error,
on every destination path without a parent component (such as a filesystem
root): `path.parent().unwrap()` is evaluated before any filesystem call. -/
theorem afw_new_panics_on_parentless_path (p : RPath)
    (mkdirErr createErr : Option IoErr) (h : rpathParent p = none) :
    afwNew p mkdirErr createErr = .panicked := by
  simp [afwNew, h]

/-- C10 witness: the filesystem root has no parent, and `new` at the root
panics whatever the filesystem would have answered. -/
theorem afw_new_panics_on_parentless_path_witness :
    afwNew ⟨true, []⟩ (some ⟨.notFound, 1⟩) none = .panicked :=
  afw_new_panics_on_parentless_path ⟨true, []⟩ (some ⟨.notFound, 1⟩) none rfl

/-- If the streaming loop ran to normal completion, the stream served no
transport error, the future was not dropped, and the chunks forwarded to the
writer are exactly the served chunks in order. -/
theorem dlLoop_ended (wrErr : Nat → Option IoErr) (items : List (Except HttpErr Chunk))
    (n : Nat) (fuel : Option Nat)
    (h : (dlLoop wrErr items n fuel).2 = .ended) :
    (dlLoop wrErr items n fuel).1 = okChunks items ∧
      ∀ it ∈ items, ∃ c, it = .ok c := by
  induction items generalizing n fuel with
  | nil =>
      by_cases hf : fuel = some 0
      · rw [dlLoop.eq_def] at h
        simp [hf] at h
      · simp [dlLoop.eq_def, hf, okChunks]
  | cons it rest ih =>
      by_cases hf : fuel = some 0
      · rw [dlLoop.eq_def] at h
        simp [hf] at h
      · cases it with
        | error e =>
            rw [dlLoop.eq_def] at h
            simp [hf] at h
        | ok c =>
            cases hw : wrErr n with
            | some e =>
                rw [dlLoop.eq_def] at h
                simp [hf, hw] at h
            | none =>
                rw [dlLoop.eq_def] at h ⊢
                simp only [if_neg hf, hw] at h ⊢
                obtain ⟨h1, h2⟩ := ih (n + 1) (Option.map Nat.pred fuel) h
                refine ⟨?_, ?_⟩
                · simpa [okChunks] using h1
                · intro x hx
                  rcases List.mem_cons.mp hx with hx | hx
                  · exact ⟨c, hx⟩
                  · exact h2 x hx

/-- C1: every call to `download(url, path)` that returns success leaves the
destination file existing with byte content exactly the concatenation, in
program order, of all chunks received from the HTTP response body — every
body item was a chunk — and no temporary artifact remains: the cleanup guard
was armed and then disarmed, so the file was not removed. -/
theorem download_success_exact_content (path : RPath) (env : DownloadEnv)
    (init : Option (List Nat))
    (h : (downloadModel path env init).outcome = .returned (.ok ())) :
    (downloadModel path env init).fs = some (okChunks env.body).flatten ∧
    (∀ it ∈ env.body, ∃ c, it = .ok c) ∧
    (downloadModel path env init).guardArmed = true ∧
    (downloadModel path env init).guardFired = false := by
  obtain ⟨pr, hr, mk, cr, bd, wr, fl, jn, ca, rm⟩ := env
  unfold downloadModel at h ⊢
  cases pr with
  | error e => simp at h
  | ok url =>
      cases hr with
      | error e => simp at h
      | ok u =>
          cases hn : afwNew path mk cr with
          | panicked => simp [hn] at h
          | failed e => simp [hn] at h
          | created =>
              simp only [hn] at h ⊢
              cases he : (dlLoop wr bd 0 ca).2 with
              | ended =>
                  simp only [he] at h ⊢
                  cases hd : doneModel wr fl jn (dlLoop wr bd 0 ca).1 with
                  | error e => simp [hd] at h
                  | ok u2 =>
                      simp only [hd]
                      obtain ⟨h1, h2⟩ := dlLoop_ended wr bd 0 ca he
                      simp [h1]
                      exact h2
              | cancelled => simp [he] at h
              | streamFail e => simp [he] at h
              | writeFail e => simp [he] at h

/-- A successful concrete download environment: two chunks served, every
write, the flush and the join succeed. -/
def envDlOk : DownloadEnv :=
  ⟨.ok "u", .ok (), none, none, [.ok [1, 2], .ok [3]], wrAllOk, none, none, none, none⟩

/-- C1 witness: on the two-chunk run the destination holds `[1, 2, 3]`, the
concatenation of the served chunks in order, and the guard was disarmed. -/
theorem download_success_exact_content_witness :
    (downloadModel ⟨true, ["t", "f"]⟩ envDlOk (some [9])).fs
        = some (okChunks envDlOk.body).flatten ∧
    (∀ it ∈ envDlOk.body, ∃ c, it = .ok c) ∧
    (downloadModel ⟨true, ["t", "f"]⟩ envDlOk (some [9])).guardArmed = true ∧
    (downloadModel ⟨true, ["t", "f"]⟩ envDlOk (some [9])).guardFired = false :=
  download_success_exact_content ⟨true, ["t", "f"]⟩ envDlOk (some [9]) rfl

/-- A download environment whose second disk write fails and whose cleanup
`remove_file` also fails. -/
def envDlWriteFailRemoveFail : DownloadEnv :=
  ⟨.ok "u", .ok (), none, none, [.ok [1, 2], .ok [3]], wrFailAtOne, none, none, none,
   some ⟨.permissionDenied, 3⟩⟩

/-- C2 counterexample: a download that fails after the `AsyncFileWriter` was
constructed (second disk write fails, so the guard fired and the caller gets
the typed I/O error) but whose best-effort cleanup `remove_file` itself
fails: the destination path still exists afterward, refuting the claim that
it never does. -/
theorem download_failure_can_leave_file_counterexample :
    (downloadModel ⟨true, ["t", "f"]⟩ envDlWriteFailRemoveFail none).guardFired = true ∧
    (downloadModel ⟨true, ["t", "f"]⟩ envDlWriteFailRemoveFail none).outcome
        = .returned (.error (.ioError ⟨.other, 7⟩)) ∧
    (downloadModel ⟨true, ["t", "f"]⟩ envDlWriteFailRemoveFail none).fs
        = some [1, 2] := ⟨rfl, rfl, rfl⟩

/-- C2 (amended): for every download that fails after the `AsyncFileWriter`
has been constructed — equivalently, whose cleanup guard fired — and whose
best-effort removal of the partial file succeeds, the destination path does
not exist afterward, and the run either was cancelled mid-stream (the future
dropped, delivering no result) or returned a typed error identifying the
failing stage. -/
theorem download_failure_removes_file (path : RPath) (env : DownloadEnv)
    (init : Option (List Nat))
    (hrem : env.removeErr = none)
    (hfired : (downloadModel path env init).guardFired = true) :
    (downloadModel path env init).fs = none ∧
    ((downloadModel path env init).outcome = .cancelled ∨
      ∃ e, (downloadModel path env init).outcome = .returned (.error e)) := by
  obtain ⟨pr, hr, mk, cr, bd, wr, fl, jn, ca, rm⟩ := env
  simp only at hrem
  subst hrem
  unfold downloadModel at hfired ⊢
  cases pr with
  | error e => simp at hfired
  | ok url =>
      cases hr with
      | error e => simp at hfired
      | ok u =>
          cases hn : afwNew path mk cr with
          | panicked => simp [hn] at hfired
          | failed e => simp [hn] at hfired
          | created =>
              simp only [hn] at hfired ⊢
              cases he : (dlLoop wr bd 0 ca).2 with
              | ended =>
                  simp only [he] at hfired ⊢
                  cases hd : doneModel wr fl jn (dlLoop wr bd 0 ca).1 with
                  | error e => simp [hd, failFs]
                  | ok u2 => simp [hd] at hfired
              | cancelled => simp [he, failFs]
              | streamFail e => simp [he, failFs]
              | writeFail e => simp [he, failFs]

/-- A download environment whose second disk write fails, with cleanup
removal succeeding. -/
def envDlWriteFail : DownloadEnv :=
  ⟨.ok "u", .ok (), none, none, [.ok [1, 2], .ok [3]], wrFailAtOne, none, none, none, none⟩

/-- C2 witness (amended form): on the failing-write run with working cleanup,
the destination is gone and the caller got a typed error. -/
theorem download_failure_removes_file_witness :
    (downloadModel ⟨true, ["t", "f"]⟩ envDlWriteFail none).fs = none ∧
    ((downloadModel ⟨true, ["t", "f"]⟩ envDlWriteFail none).outcome = .cancelled ∨
      ∃ e, (downloadModel ⟨true, ["t", "f"]⟩ envDlWriteFail none).outcome
          = .returned (.error e)) :=
  download_failure_removes_file ⟨true, ["t", "f"]⟩ envDlWriteFail none rfl rfl

/-- C8: the outcome `download` delivers to its caller never depends on the
outcome of the cleanup action: a failure of `fs::remove_file` in the scope
guard is discarded (`.ok()`), so the caller always receives the original
failing stage's error, never a cleanup error. -/
theorem download_cleanup_failure_never_masks_error (path : RPath)
    (env : DownloadEnv) (init : Option (List Nat)) (r : Option IoErr) :
    (downloadModel path { env with removeErr := r } init).outcome =
      (downloadModel path { env with removeErr := none } init).outcome := by
  obtain ⟨pr, hr, mk, cr, bd, wr, fl, jn, ca, rm⟩ := env
  unfold downloadModel
  cases pr with
  | error e => rfl
  | ok url =>
      cases hr with
      | error e => rfl
      | ok u =>
          cases hn : afwNew path mk cr with
          | panicked => simp [hn]
          | failed e => simp [hn]
          | created =>
              simp only [hn]
              cases he : (dlLoop wr bd 0 ca).2 with
              | ended =>
                  simp only [he]
                  cases hd : doneModel wr fl jn (dlLoop wr bd 0 ca).1 with
                  | error e => simp [hd]
                  | ok u2 => simp [hd]
              | cancelled => simp [he]
              | streamFail e => simp [he]
              | writeFail e => simp [he]

/-!
## `extract` (src/helpers.rs lines 89-159)

`extract(source, fmt, path)` dispatches on the closed tag `PkgFmt`: the
five archive arms open the source file, wrap it in the format's decoder
(`GzDecoder`, `XzDecoder`, `ZstdDecoder`, none, or `ZipArchive`), and
unpack into `path`; the `Bin` arm is `fs::copy(source, path)`.

Archive contents are modelled abstractly: an entry is a relative path
(components, possibly containing parent traversals) plus its bytes, and
an `ExtractEnv` records, per format, what the source file decodes to
under that format's reader (the readers themselves are third-party
crates, not part of this repository).
-/
inductive PkgFmt where
  | tar
  | tgz
  | txz
  | tzstd
  | zip
  | bin
deriving DecidableEq, Repr

/-- One component of an archive entry's declared path. -/
inductive PathComp where
  | normal (s : String)
  | parentDir
  | curDir
deriving DecidableEq, Repr

/-- Resolve an entry path relative to the extraction root: `none` when a
parent traversal climbs above the root, otherwise the resolved relative
components. -/
def resolveRel : List String → List PathComp → Option (List String)
  | acc, [] => some acc
  | acc, .normal s :: rest => resolveRel (acc ++ [s]) rest
  | acc, .curDir :: rest => resolveRel acc rest
  | acc, .parentDir :: rest =>
      match acc with
      | [] => none
      | _ => resolveRel acc.dropLast rest

/-- One archive entry: declared path and file bytes. -/
structure Entry where
  path : List PathComp
  data : List Nat
deriving DecidableEq, Repr

/-- Modelled from the spec: the containment contract of the archive
unpackers (`tar::Archive::unpack`, `zip::ZipArchive::extract` — third-party
code, not under src/): entries are materialized under the destination in
archive order, and an entry whose resolved path would escape the
destination directory fails the extraction at that point rather than
writing anything outside.  Returns the files written (resolved path and
bytes) and whether the unpack succeeded. -/
def unpackEntries (dest : List String) : List Entry → List (List String × List Nat) × Bool
  | [] => ([], true)
  | e :: rest =>
      match resolveRel [] e.path with
      | none => ([], false)
      | some rel =>
          let p := unpackEntries dest rest
          ((dest ++ rel, e.data) :: p.1, p.2)

/-- Oracles for one run of `extract`: the outcome of `fs::File::open` on
the source, what the source decodes to under each format's reader, and
for the `Bin` arm the outcome of `fs::copy` and the source bytes it
copies. -/
structure ExtractEnv where
  openErr : Option IoErr
  decodeTar : Except DecodeErr (List Entry)
  decodeTgz : Except DecodeErr (List Entry)
  decodeTxz : Except DecodeErr (List Entry)
  decodeTzstd : Except DecodeErr (List Entry)
  decodeZip : Except DecodeErr (List Entry)
  copyErr : Option IoErr
  srcBytes : List Nat

/-- End state of one run of `extract`: its result, the files written
(resolved path and bytes), and whether the destination was created. -/
structure ExtractResult where
  res : Except BinstallError Unit
  written : List (List String × List Nat)
  destCreated : Bool

/-- The common shape of the five archive arms: open the source, decode it
under the format's reader, unpack into the destination (which the unpack
creates). -/
def unpackPipeline (dest : List String) (openErr : Option IoErr)
    (decoded : Except DecodeErr (List Entry)) : ExtractResult :=
  match openErr with
  | some e => ⟨.error (.ioError e), [], false⟩
  | none =>
      match decoded with
      | .error d => ⟨.error (.decodeFail d), [], false⟩
      | .ok entries =>
          let p := unpackEntries dest entries
          if p.2 then ⟨.ok (), p.1, true⟩
          else ⟨.error (.decodeFail .pathEscape), p.1, true⟩

/-- `extract`: the fixed six-arm dispatch on `PkgFmt`.  For `Bin` the
destination is the target file itself, created by `fs::copy`. -/
def extractModel (env : ExtractEnv) (fmt : PkgFmt) (dest : List String) :
    ExtractResult :=
  match fmt with
  | .tar => unpackPipeline dest env.openErr env.decodeTar
  | .tgz => unpackPipeline dest env.openErr env.decodeTgz
  | .txz => unpackPipeline dest env.openErr env.decodeTxz
  | .tzstd => unpackPipeline dest env.openErr env.decodeTzstd
  | .zip => unpackPipeline dest env.openErr env.decodeZip
  | .bin =>
      match env.copyErr with
      | some e => ⟨.error (.ioError e), [], false⟩
      | none => ⟨.ok (), [(dest, env.srcBytes)], true⟩

/-- The decoder the dispatch uses for an archive format (`Bin` decodes to
nothing: it never unpacks). -/
def archiveDecode (env : ExtractEnv) : PkgFmt → Except DecodeErr (List Entry)
  | .tar => env.decodeTar
  | .tgz => env.decodeTgz
  | .txz => env.decodeTxz
  | .tzstd => env.decodeTzstd
  | .zip => env.decodeZip
  | .bin => .ok []

/-- Every file the unpack writes lies under the destination directory. -/
theorem unpackEntries_under_dest (dest : List String) (entries : List Entry) :
    ∀ f ∈ (unpackEntries dest entries).1, ∃ rel, f.1 = dest ++ rel := by
  induction entries with
  | nil => simp [unpackEntries]
  | cons e rest ih =>
      cases hr : resolveRel [] e.path with
      | none => simp [unpackEntries, hr]
      | some rel =>
          simp only [unpackEntries, hr]
          intro f hf
          rcases List.mem_cons.mp hf with hf | hf
          · exact ⟨rel, by rw [hf]⟩
          · exact ih f hf

/-- An escaping entry makes the unpack fail. -/
theorem unpackEntries_fails_on_escape (dest : List String) (entries : List Entry)
    (h : ∃ e ∈ entries, resolveRel [] e.path = none) :
    (unpackEntries dest entries).2 = false := by
  induction entries with
  | nil => simp at h
  | cons e rest ih =>
      rcases h with ⟨x, hx, hesc⟩
      rcases List.mem_cons.mp hx with hx | hx
      · subst hx
        simp [unpackEntries, hesc]
      · cases hr : resolveRel [] e.path with
        | none => simp [unpackEntries, hr]
        | some rel =>
            simp only [unpackEntries, hr]
            exact ih ⟨x, hx, hesc⟩

/-- The spec's expected materialization: each entry under the destination
at its resolved path. -/
def materialized (dest : List String) (entries : List Entry) :
    List (List String × List Nat) :=
  entries.map fun e => (dest ++ (resolveRel [] e.path).getD [], e.data)

/-- A traversal-free unpack writes exactly the materialization, in order. -/
theorem unpackEntries_ok (dest : List String) (entries : List Entry)
    (h : ∀ e ∈ entries, (resolveRel [] e.path).isSome) :
    unpackEntries dest entries = (materialized dest entries, true) := by
  induction entries with
  | nil => simp [unpackEntries, materialized]
  | cons e rest ih =>
      have he := h e (List.mem_cons_self e rest)
      rcases Option.isSome_iff_exists.mp he with ⟨rel, hr⟩
      have hrest : ∀ x ∈ rest, (resolveRel [] x.path).isSome :=
        fun x hx => h x (List.mem_cons_of_mem e hx)
      simp [unpackEntries, hr, ih hrest, materialized]

/-- C6: for every archive-format extraction (Tar, Tgz, Txz, Tzstd, Zip),
if any entry's resolved path would escape the destination directory, the
extraction fails, and every file it wrote lies under the destination
directory — no byte is written outside it. -/
theorem extract_rejects_path_traversal (env : ExtractEnv) (fmt : PkgFmt)
    (dest : List String) (entries : List Entry)
    (hfmt : fmt ≠ .bin)
    (hdec : archiveDecode env fmt = .ok entries)
    (hesc : ∃ e ∈ entries, resolveRel [] e.path = none) :
    (∃ err, (extractModel env fmt dest).res = .error err) ∧
    ∀ f ∈ (extractModel env fmt dest).written, ∃ rel, f.1 = dest ++ rel := by
  have hfail := unpackEntries_fails_on_escape dest entries hesc
  have hund := unpackEntries_under_dest dest entries
  cases fmt <;> simp only [archiveDecode] at hdec <;>
    first
    | exact absurd rfl hfmt
    | · simp only [extractModel, unpackPipeline, hdec]
        cases ho : env.openErr with
        | some e => simp
        | none =>
            simp [hfail]
            intro a b hab
            exact hund (a, b) hab

/-- An extraction environment whose zip central directory holds a
parent-traversal entry. -/
def envZipEscape : ExtractEnv :=
  ⟨none, .ok [], .ok [], .ok [], .ok [],
   .ok [⟨[.parentDir, .normal "evil"], [1]⟩], none, [7]⟩

/-- C6 witness: extracting the zip whose sole entry climbs out of the
destination fails, and nothing was written outside the destination. -/
theorem extract_rejects_path_traversal_witness :
    (∃ err, (extractModel envZipEscape .zip ["inst"]).res = .error err) ∧
    ∀ f ∈ (extractModel envZipEscape .zip ["inst"]).written,
      ∃ rel, f.1 = ["inst"] ++ rel :=
  extract_rejects_path_traversal envZipEscape .zip ["inst"]
    [⟨[.parentDir, .normal "evil"], [1]⟩] (by decide) rfl
    ⟨⟨[.parentDir, .normal "evil"], [1]⟩, List.mem_singleton.mpr rfl, rfl⟩

/-- C7: for every format in the dispatch table, with the source readable,
the decode clean and (for archive formats) no entry escaping, `extract`
succeeds and fully materializes the contents under the destination —
entries at their resolved paths for the archive formats, the verbatim byte
copy of the source for `Bin` — creating the destination in the process. -/
theorem extract_materializes_contents (env : ExtractEnv) (fmt : PkgFmt)
    (dest : List String) (entries : List Entry)
    (hopen : env.openErr = none) (hcopy : env.copyErr = none)
    (hdec : archiveDecode env fmt = .ok entries)
    (hok : ∀ e ∈ entries, (resolveRel [] e.path).isSome) :
    (extractModel env fmt dest).res = .ok () ∧
    (extractModel env fmt dest).destCreated = true ∧
    (extractModel env fmt dest).written =
      (match fmt with
       | .bin => [(dest, env.srcBytes)]
       | _ => materialized dest entries) := by
  have hup := unpackEntries_ok dest entries hok
  cases fmt <;> simp only [archiveDecode] at hdec <;>
    simp [extractModel, unpackPipeline, hopen, hcopy, hdec, hup]

/-- An extraction environment whose tgz stream decodes to one entry
`bin/tool`. -/
def envTgzOk : ExtractEnv :=
  ⟨none, .ok [], .ok [⟨[.normal "bin", .normal "tool"], [5, 6]⟩], .ok [], .ok [],
   .ok [], none, [7]⟩

/-- C7 witness: extracting the one-entry tgz into `inst` produces
`inst/bin/tool` with its bytes and creates the destination; the same
theorem applied to `Bin` yields the verbatim copy. -/
theorem extract_materializes_contents_witness :
    ((extractModel envTgzOk .tgz ["inst"]).res = .ok () ∧
     (extractModel envTgzOk .tgz ["inst"]).destCreated = true ∧
     (extractModel envTgzOk .tgz ["inst"]).written
        = [(["inst", "bin", "tool"], [5, 6])]) ∧
    (extractModel envTgzOk .bin ["inst", "tool2"]).written
        = [(["inst", "tool2"], [7])] :=
  ⟨extract_materializes_contents envTgzOk .tgz ["inst"]
      [⟨[.normal "bin", .normal "tool"], [5, 6]⟩] rfl rfl rfl (by decide),
   (extract_materializes_contents envTgzOk .bin ["inst", "tool2"] [] rfl rfl rfl
      (by simp)).2.2⟩

/-!
## `confirm` (src/helpers.rs lines 201-216)

The prompt loop reads one line per iteration and matches its trimmed
content against the exact or-patterns of the source:

  "yes" | "y" | "YES" | "Y" => break Ok(()),
  "no" | "n" | "NO" | "N" | "" => break Err(BinstallError::UserAbort),
  _ => continue,

`rustTrim` models `str::trim` (strip leading and trailing whitespace).
Standard input is modelled as the list of lines it will yield; once the
list is exhausted, `read_line` reads zero bytes, the buffer stays empty,
and the empty-string arm aborts.
-/
def trimChars (cs : List Char) : List Char :=
  ((cs.dropWhile Char.isWhitespace).reverse.dropWhile Char.isWhitespace).reverse

/-- `str::trim`: the line without leading and trailing whitespace. -/
def rustTrim (s : String) : String := ⟨trimChars s.data⟩

/-- `str::to_lowercase`, used only to state what a case-insensitive
spelling is. -/
def lowerStr (s : String) : String := ⟨s.data.map Char.toLower⟩

/-- The success or-pattern `"yes" | "y" | "YES" | "Y"`. -/
def isYesToken (t : String) : Bool :=
  t = "yes" || t = "y" || t = "YES" || t = "Y"

/-- The abort or-pattern `"no" | "n" | "NO" | "N" | ""`. -/
def isNoToken (t : String) : Bool :=
  t = "no" || t = "n" || t = "NO" || t = "N" || t = ""

/-- The `confirm` loop over the lines standard input will yield. -/
def confirmModel : List String → Except BinstallError Unit
  | [] => .error .userAbort
  | l :: rest =>
      if isYesToken (rustTrim l) then .ok ()
      else if isNoToken (rustTrim l) then .error .userAbort
      else confirmModel rest

/-- C9 counterexample: the line `Yes` trims to itself and is a
case-insensitive spelling of `yes`, yet `confirm` does not return success
on it — it matches no arm, loops, and (input exhausted) aborts — refuting
the claim that every case-insensitive spelling of yes is accepted. -/
theorem confirm_mixed_case_not_accepted_counterexample :
    rustTrim "Yes" = "Yes" ∧ lowerStr "Yes" = "yes" ∧
    confirmModel ["Yes"] = .error .userAbort :=
  ⟨by decide, by decide, rfl⟩

/-- The two token sets of the match are disjoint, so the order of the two
checks never matters for an abort token. -/
theorem yes_no_tokens_disjoint (t : String) (h : isNoToken t = true) :
    isYesToken t = false := by
  simp only [isNoToken, Bool.or_eq_true, decide_eq_true_eq] at h
  rcases h with ⟨⟨⟨h | h⟩ | h⟩ | h⟩ | h <;> subst h <;> decide

/-- C9 (amended): `confirm` reads one line and matches its trimmed content
against the exact token sets of the source: any of `yes`, `y`, `YES`, `Y`
returns success; any of `no`, `n`, `NO`, `N` or the empty string returns
the typed user-abort error; any other line (mixed-case spellings included)
makes it loop and prompt again on the remaining input. -/
theorem confirm_exact_tokens (l : String) (rest : List String) :
    (isYesToken (rustTrim l) = true → confirmModel (l :: rest) = .ok ()) ∧
    (isNoToken (rustTrim l) = true → confirmModel (l :: rest) = .error .userAbort) ∧
    (isYesToken (rustTrim l) = false → isNoToken (rustTrim l) = false →
      confirmModel (l :: rest) = confirmModel rest) := by
  refine ⟨?_, ?_, ?_⟩
  · intro h
    simp [confirmModel, h]
  · intro h
    simp [confirmModel, yes_no_tokens_disjoint (rustTrim l) h, h]
  · intro hy hn
    simp [confirmModel, hy, hn]

/-- C9 witness (amended form): `y` is accepted, a padded `no` aborts after
trimming, and an unrecognized line defers to the rest of the input. -/
theorem confirm_exact_tokens_witness :
    confirmModel ["y"] = .ok () ∧
    confirmModel ["  no "] = .error .userAbort ∧
    confirmModel ["maybe", "YES"] = confirmModel ["YES"] :=
  ⟨(confirm_exact_tokens "y" []).1 (by decide),
   (confirm_exact_tokens "  no " []).2.1 (by decide),
   (confirm_exact_tokens "maybe" ["YES"]).2.2 (by decide) (by decide)⟩
